import Mathlib

/-!
Verification of the MatrixSolve kernel
(`tensorflow/core/kernels/matrix_solve_op.cc`).

The development embeds the three components of the kernel:

* `getOutputMatrixShape` — the shape resolver (`GetOutputMatrixShape`);
* `getCostPerUnit` — the cost estimator (`GetCostPerUnit`), with 64-bit
  two's-complement wrap-around made explicit, since the C++ arithmetic is
  over `int64`;
* `solve` — the per-pair solve step (`ComputeMatrix`), over exact rational
  matrices, with the Eigen `PartialPivLU` factorization modelled from the
  spec's description of the algorithm.
-/

namespace MatrixSolve

/-! ## Shapes and the shape resolver -/

/-- Error taxonomy of the kernel, from the spec's §7: shape violations and
singular inputs. -/
inductive SolveError where
  | ShapeMismatch
  | NotInvertible
deriving DecidableEq

/-- `GetOutputMatrixShape`: the output shape is the input shape with its last
dimension replaced by the rhs shape's last dimension.  The `CHECK_EQ` on the
dimension counts is modelled as the `ShapeMismatch` failure (the spec's §4.1
failure mode for the resolver).  A shape is a list of `int64` dimension
sizes; `TensorShape::set_dim` / `dim_size` are modelled as list update /
lookup. -/
def getOutputMatrixShape (input rhs : List Int) : Except SolveError (List Int) :=
  if input.length = rhs.length then
    .ok (input.set (input.length - 1) (rhs.getD (input.length - 1) 0))
  else
    .error .ShapeMismatch

/-! ## The cost estimator -/

/-- `kint32max`, the saturation constant returned by `GetCostPerUnit` when
`rows > 2^20`. -/
def kint32max : Int := 2147483647

/-- Maximum representable value of the `int64` type in which the cost is
computed and returned. -/
def kint64max : Int := 9223372036854775807

/-- Two's-complement wrap-around of a mathematical integer into the `int64`
range `[-2^63, 2^63)`, the semantics of the C++ `int64` arithmetic in
`GetCostPerUnit`. -/
def wrap64 (x : Int) : Int :=
  (x + 9223372036854775808) % 18446744073709551616 - 9223372036854775808

/-- `GetCostPerUnit`: reads `rows = input_matrix_shape.dim_size(0)` and
`rhss = rhs_matrix_shape.dim_size(1)`; if `rows > 2^20` (`1048576`) it
returns `kint32max`, otherwise `rows * rows * (rows + rhss)` evaluated in
`int64` arithmetic (each `*` and `+` wraps). -/
def getCostPerUnit (inputShape rhsShape : List Int) : Int :=
  let rows := inputShape.getD 0 0
  let rhss := rhsShape.getD 1 0
  if rows > 1048576 then
    kint32max
  else
    wrap64 (wrap64 (rows * rows) * wrap64 (rows + rhss))

/-! ## Matrices and the LU factorization

Matrices are dense row-major lists of rows over exact rationals.  The Eigen
`PartialPivLU` code is third-party and not part of this repository, so it is
modelled from the spec's algorithm description (partial pivoting choosing the
largest-magnitude pivot in the active column, in-place `L`/`U` storage,
permutation as recorded row transpositions, forward then back substitution).
-/

/-- A dense matrix of rationals: `rows × cols`, entries as a list of rows. -/
structure Mat where
  rows : Nat
  cols : Nat
  data : List (List ℚ)
deriving DecidableEq

/-- Entry `(i, j)` of a row-major matrix body, defaulting to `0` outside. -/
def getE (m : List (List ℚ)) (i j : Nat) : ℚ :=
  (m.getD i []).getD j 0

/-- Absolute value, as Eigen's `cwiseAbs` computes it entrywise. -/
def absQ (x : ℚ) : ℚ :=
  if x < 0 then -x else x

/-- Index of the first entry of maximal absolute value (Eigen `maxCoeff`
keeps the first index attaining the maximum). -/
def argmaxAbs (l : List ℚ) : Nat :=
  (l.foldl
    (fun st x =>
      if absQ x > st.2.2 then (st.2.1, st.2.1 + 1, absQ x)
      else (st.1, st.2.1 + 1, st.2.2))
    ((0, 0, -1) : Nat × Nat × ℚ)).1

/-- The sub-column of column `k` from row `k` down. -/
def colBelow (m : List (List ℚ)) (k : Nat) : List ℚ :=
  (m.drop k).map (fun r => r.getD k 0)

/-- Swap rows `i` and `j` of a matrix body. -/
def swapRows (m : List (List ℚ)) (i j : Nat) : List (List ℚ) :=
  (m.set i (m.getD j [])).set j (m.getD i [])

/-- Modelled from the spec: one elimination step of the in-place LU at pivot
position `k`: each row `i > k` stores the multiplier at column `k` and has
the pivot row subtracted from its columns beyond `k`. -/
def elimStep (m : List (List ℚ)) (k : Nat) : List (List ℚ) :=
  let pivotRow := m.getD k []
  let p := pivotRow.getD k 0
  m.mapIdx (fun i row =>
    if i ≤ k then row
    else
      let f := row.getD k 0 / p
      row.mapIdx (fun j x =>
        if j < k then x
        else if j = k then f
        else x - f * pivotRow.getD j 0))

/-- Modelled from the spec: one step of the partial-pivoting loop: find the
largest-magnitude candidate pivot in the active column; if it is zero the
whole sub-column is zero and the step does nothing, otherwise swap that row
into the pivot position, record the transposition, and eliminate. -/
def luStepP (st : List (List ℚ) × List (Nat × Nat)) (k : Nat) :
    List (List ℚ) × List (Nat × Nat) :=
  let col := colBelow st.1 k
  let rel := argmaxAbs col
  if absQ (col.getD rel 0) = 0 then st
  else (elimStep (swapRows st.1 k (k + rel)) k, st.2 ++ [(k, k + rel)])

/-- Modelled from the spec: the partial-pivoting LU factorization
`P·A = L·U`.  Returns the in-place `LU` body (unit-lower `L` strictly below
the diagonal, `U` on and above it) together with the recorded row
transpositions making up `P`. -/
def luFact (m : List (List ℚ)) : List (List ℚ) × List (Nat × Nat) :=
  (List.range m.length).foldl luStepP (m, [])

/-- Eigen `minCoeff` on a list (the matrices passed to it in the kernel are
nonempty; the empty case is given the junk value `0`). -/
def minCoeff : List ℚ → ℚ
  | [] => 0
  | x :: xs => xs.foldl min x

/-- `min_abs_pivot` of `ComputeMatrix`: the minimum absolute value on the
diagonal of the factorized matrix `lu_decomposition.matrixLU()`. -/
def minAbsPivot (A : Mat) : ℚ :=
  minCoeff (((List.range A.data.length).map
    (fun i => getE (luFact A.data).1 i i)).map absQ)

/-- Entrywise difference of two equally long rows. -/
def rowSub (a b : List ℚ) : List ℚ :=
  List.zipWith (fun x y => x - y) a b

/-- A row scaled by a rational. -/
def rowScale (c : ℚ) (r : List ℚ) : List ℚ :=
  r.map (fun x => c * x)

/-- Modelled from the spec: forward substitution `L·Y = P·B` with the unit
lower-triangular factor stored strictly below the diagonal of `lum`. -/
def forwardSub (lum pb : List (List ℚ)) : List (List ℚ) :=
  (List.range pb.length).foldl
    (fun y i =>
      y ++ [(List.range i).foldl
        (fun acc j => rowSub acc (rowScale (getE lum i j) (y.getD j [])))
        (pb.getD i [])])
    []

/-- Modelled from the spec: back substitution `U·X = Y` with the upper
triangular factor stored on and above the diagonal of `lum`. -/
def backSub (lum y : List (List ℚ)) : List (List ℚ) :=
  let n := lum.length
  ((List.range n).reverse).foldl
    (fun x i =>
      x.set i (rowScale (1 / getE lum i i)
        (((List.range n).drop (i + 1)).foldl
          (fun acc j => rowSub acc (rowScale (getE lum i j) (x.getD j [])))
          (y.getD i []))))
    (List.replicate n [])

/-- Modelled from the spec: `lu_decomposition.solve(rhs)` — apply the
recorded row transpositions to the right-hand side, then forward- and
back-substitute. -/
def luSolveMat (a b : List (List ℚ)) : List (List ℚ) :=
  let fct := luFact a
  backSub fct.1 (forwardSub fct.1 (fct.2.foldl
    (fun bb kr => swapRows bb kr.1 kr.2) b))

/-! ## The solve step -/

/-- Result of one `ComputeMatrix` call: success or a tagged failure. -/
inductive SolveResult where
  | ok
  | err (e : SolveError)
deriving DecidableEq

/-- Outcome of one `ComputeMatrix` call: the result tag, the state of the
caller-supplied output buffer after the call, and whether the factorization
line was reached (instrumentation for the "no numerical work before the
failure" parts of the spec). -/
structure SolveOutcome where
  res : SolveResult
  buf : Mat
  factorized : Bool
deriving DecidableEq

/-- `ComputeMatrix`: the per-pair solve step.  The two `OP_REQUIRES` shape
checks come first (failure returns immediately, modelled as the error
outcome with the buffer untouched, per the spec's propagation policy); the
empty system returns early with no factorization; then the LU factorization
is computed, the minimum absolute pivot is checked, and only on success is
the solution written into the output buffer. -/
def solve (A B outX : Mat) : SolveOutcome :=
  if A.rows ≠ A.cols then ⟨.err .ShapeMismatch, outX, false⟩
  else if A.rows ≠ B.rows then ⟨.err .ShapeMismatch, outX, false⟩
  else if A.rows = 0 then ⟨.ok, outX, false⟩
  else if ¬ minAbsPivot A > 0 then ⟨.err .NotInvertible, outX, true⟩
  else ⟨.ok, { outX with data := luSolveMat A.data B.data }, true⟩

/-! ## Helper lemmas -/

lemma getD_set_ne : ∀ (l : List Int) (i j : Nat) (v d : Int), i ≠ j →
    (l.set i v).getD j d = l.getD j d
  | [], _, _, _, _, _ => rfl
  | _ :: _, 0, 0, _, _, h => absurd rfl h
  | _ :: _, 0, _ + 1, _, _, _ => rfl
  | _ :: _, _ + 1, 0, _, _, _ => rfl
  | _ :: xs, i + 1, j + 1, v, d, h =>
      getD_set_ne xs i j v d (fun e => h (congrArg Nat.succ e))

lemma getD_set_self : ∀ (l : List Int) (i : Nat) (v d : Int), i < l.length →
    (l.set i v).getD i d = v
  | [], _, _, _, h => absurd h (by simp)
  | _ :: _, 0, _, _, _ => rfl
  | _ :: xs, i + 1, v, d, h => getD_set_self xs i v d (Nat.lt_of_succ_lt_succ h)

lemma wrap64_emod (x : Int) :
    wrap64 x % 18446744073709551616 = x % 18446744073709551616 := by
  unfold wrap64; omega

lemma wrap64_congr (x y : Int)
    (h : x % 18446744073709551616 = y % 18446744073709551616) :
    wrap64 x = wrap64 y := by
  unfold wrap64; omega

lemma wrap64_mul (a b : Int) : wrap64 (wrap64 a * wrap64 b) = wrap64 (a * b) := by
  apply wrap64_congr
  conv_lhs => rw [Int.mul_emod, wrap64_emod, wrap64_emod, ← Int.mul_emod]

lemma wrap64_eq_self (x : Int) (h0 : -9223372036854775808 ≤ x)
    (h1 : x ≤ 9223372036854775807) : wrap64 x = x := by
  unfold wrap64; omega

/-- The cost product stays within int64 when `rows ≤ 2^20` and
`rhss ≤ 2^23 - 1 - 2^20`. -/
lemma cost_product_le (r s : Int) (h0 : 0 ≤ r) (h1 : r ≤ 1048576)
    (h2 : 0 ≤ s) (h3 : s ≤ 7340031) :
    r * r * (r + s) ≤ 9223372036854775807 := by
  have hrr : r * r ≤ 1048576 * 1048576 := mul_le_mul h1 h1 h0 (by norm_num)
  have hsum : r + s ≤ 8388607 := by omega
  have hmain : r * r * (r + s) ≤ 1048576 * 1048576 * 8388607 :=
    mul_le_mul hrr hsum (by omega) (by norm_num)
  exact hmain.trans (by norm_num)

/-- On the unclamped branch, if the exact product fits in int64 the estimate
is that exact product. -/
lemma getCostPerUnit_eq_of_le (input rhs : List Int)
    (h : input.getD 0 0 ≤ 1048576) (h0 : 0 ≤ input.getD 0 0)
    (h1 : 0 ≤ rhs.getD 1 0)
    (hle : input.getD 0 0 * input.getD 0 0 * (input.getD 0 0 + rhs.getD 1 0) ≤
      9223372036854775807) :
    getCostPerUnit input rhs =
      input.getD 0 0 * input.getD 0 0 * (input.getD 0 0 + rhs.getD 1 0) := by
  have hnn : 0 ≤ input.getD 0 0 * input.getD 0 0 * (input.getD 0 0 + rhs.getD 1 0) :=
    mul_nonneg (mul_nonneg h0 h0) (by omega)
  simp only [getCostPerUnit]
  rw [if_neg (by omega), wrap64_mul, wrap64_eq_self _ (by omega) hle]

/-! ## Claims about the shape resolver -/

/-- C8: for shapes with the same number of dimensions, the resolver succeeds
and returns the input shape with its last dimension replaced by the rhs
shape's last dimension (and, being a plain function of the two shapes, it is
pure by construction). -/
theorem resolve_replaces_last_dim (input rhs : List Int)
    (h : input.length = rhs.length) :
    ∃ out, getOutputMatrixShape input rhs = .ok out ∧
      out.length = input.length ∧
      (∀ i, i + 1 < input.length → out.getD i 0 = input.getD i 0) ∧
      (0 < input.length →
        out.getD (input.length - 1) 0 = rhs.getD (rhs.length - 1) 0) := by
  refine ⟨input.set (input.length - 1) (rhs.getD (input.length - 1) 0),
    ?_, ?_, ?_, ?_⟩
  · unfold getOutputMatrixShape
    rw [if_pos h]
  · exact List.length_set _ _ _
  · intro i hi
    exact getD_set_ne _ _ _ _ _ (by omega)
  · intro hpos
    rw [← h]
    exact getD_set_self _ _ _ _ (by omega)

/-- C8 witness: the resolver on shapes `[2, 3]` and `[2, 5]`. -/
theorem resolve_replaces_last_dim_witness :
    ∃ out, getOutputMatrixShape [2, 3] [2, 5] = .ok out ∧
      out.length = ([2, 3] : List Int).length ∧
      (∀ i, i + 1 < ([2, 3] : List Int).length →
        out.getD i 0 = ([2, 3] : List Int).getD i 0) ∧
      (0 < ([2, 3] : List Int).length →
        out.getD (([2, 3] : List Int).length - 1) 0 =
          ([2, 5] : List Int).getD (([2, 5] : List Int).length - 1) 0) :=
  resolve_replaces_last_dim [2, 3] [2, 5] rfl

/-- C9: when the dimension counts differ, the resolver fails with
`ShapeMismatch` (the `CHECK_EQ` precondition violation). -/
theorem resolve_dim_mismatch (input rhs : List Int)
    (h : input.length ≠ rhs.length) :
    getOutputMatrixShape input rhs = .error .ShapeMismatch := by
  unfold getOutputMatrixShape
  rw [if_neg h]

/-- C9 witness: a 2-dimensional input against a 1-dimensional rhs shape. -/
theorem resolve_dim_mismatch_witness :
    getOutputMatrixShape [2, 2] [2] = .error .ShapeMismatch :=
  resolve_dim_mismatch [2, 2] [2] (by decide)

/-! ## Claims about the cost estimator -/

/-- C2 counterexample: with rhss fixed at 1, increasing rows from `2^20` to
`2^20 + 1` strictly decreases the estimate (the unclamped value at `2^20` is
about `2^60`, far above the saturation value), so the estimate is not
monotonically non-decreasing in rows. -/
theorem estimate_monotonicity_counterexample :
    (1048576 : Int) < 1048577 ∧
    ¬ getCostPerUnit [1048576, 1048576] [1048576, 1] ≤
        getCostPerUnit [1048577, 1048577] [1048576, 1] := by
  exact ⟨by decide, by decide⟩

/-- C2 (amended): the estimate is monotonically non-decreasing in rows on the
unclamped region (`rows ≤ 2^20`, with rhss small enough that the int64
product cannot wrap, `rhss ≤ 7340031`), and at `rows = 2^20 + 1` it returns
the saturation value `kint32max`; monotonicity does not extend across the
clamp threshold. -/
theorem estimate_monotone_below_clamp_and_saturates :
    (∀ in1 in2 rhs : List Int,
      0 ≤ in1.getD 0 0 → in1.getD 0 0 ≤ in2.getD 0 0 →
      in2.getD 0 0 ≤ 1048576 → 0 ≤ rhs.getD 1 0 → rhs.getD 1 0 ≤ 7340031 →
      getCostPerUnit in1 rhs ≤ getCostPerUnit in2 rhs) ∧
    (∀ input rhs : List Int, input.getD 0 0 = 1048577 →
      getCostPerUnit input rhs = kint32max) := by
  constructor
  · intro in1 in2 rhs h1 h12 h2 hs0 hs1
    have e1 := getCostPerUnit_eq_of_le in1 rhs (by omega) h1 hs0
      (cost_product_le _ _ h1 (by omega) hs0 hs1)
    have e2 := getCostPerUnit_eq_of_le in2 rhs h2 (by omega) hs0
      (cost_product_le _ _ (by omega) h2 hs0 hs1)
    rw [e1, e2]
    exact mul_le_mul (mul_le_mul h12 h12 h1 (h1.trans h12))
      (by omega) (by omega) (mul_nonneg (h1.trans h12) (h1.trans h12))
  · intro input rhs h
    simp only [getCostPerUnit]
    rw [if_pos (by omega)]

/-- C2 witness: monotonicity on a small unclamped pair and saturation at
`rows = 2^20 + 1`. -/
theorem estimate_monotone_below_clamp_witness :
    getCostPerUnit [5, 5] [5, 3] ≤ getCostPerUnit [7, 7] [5, 3] ∧
    getCostPerUnit [1048577, 9] [4, 2] = kint32max :=
  ⟨estimate_monotone_below_clamp_and_saturates.1 [5, 5] [7, 7] [5, 3]
      (by decide) (by decide) (by decide) (by decide) (by decide),
   estimate_monotone_below_clamp_and_saturates.2 [1048577, 9] [4, 2] (by decide)⟩

/-- C3 counterexample: at `rows = 2^20 + 1` the estimate is `kint32max`,
which is not the maximum representable value of the int64 cost type. -/
theorem estimate_max_representable_counterexample :
    ([1048577, 1048577] : List Int).getD 0 0 > 1048576 ∧
    getCostPerUnit [1048577, 1048577] [1048577, 1] = kint32max ∧
    getCostPerUnit [1048577, 1048577] [1048577, 1] ≠ kint64max := by
  exact ⟨by decide, by decide, by decide⟩

/-- C3 (amended): if `rows > 2^20` the estimate equals `kint32max` (the int32
maximum used as a saturation cap, not the maximum representable int64 cost);
otherwise it equals `rows * rows * (rows + rhss)` evaluated in wrapping
int64 arithmetic, which is the exact product whenever that product fits in
int64. -/
theorem estimate_clamp_and_formula (input rhs : List Int) :
    (input.getD 0 0 > 1048576 → getCostPerUnit input rhs = kint32max) ∧
    (input.getD 0 0 ≤ 1048576 →
      getCostPerUnit input rhs =
        wrap64 (input.getD 0 0 * input.getD 0 0 *
          (input.getD 0 0 + rhs.getD 1 0))) ∧
    (input.getD 0 0 ≤ 1048576 → 0 ≤ input.getD 0 0 → 0 ≤ rhs.getD 1 0 →
      input.getD 0 0 * input.getD 0 0 * (input.getD 0 0 + rhs.getD 1 0) ≤
        kint64max →
      getCostPerUnit input rhs =
        input.getD 0 0 * input.getD 0 0 * (input.getD 0 0 + rhs.getD 1 0)) := by
  refine ⟨?_, ?_, ?_⟩
  · intro h
    simp only [getCostPerUnit]
    rw [if_pos h]
  · intro h
    simp only [getCostPerUnit]
    rw [if_neg (by omega), wrap64_mul]
  · intro h h0 h1 hle
    exact getCostPerUnit_eq_of_le input rhs h h0 h1 (by simpa [kint64max] using hle)

/-- C3 witness: the estimator on 4×4 input with 3 right-hand sides. -/
theorem estimate_clamp_and_formula_witness :
    getCostPerUnit [4, 4] [4, 3] = 4 * 4 * (4 + 3) :=
  (estimate_clamp_and_formula [4, 4] [4, 3]).2.2
    (by decide) (by decide) (by decide) (by decide)

/-- C4 counterexample: for `rows = 2^20` (not clamped) and `rhss = 2^23`,
both non-negative, the exact product exceeds `kint64max`, the int64
multiplication overflows, and the estimate comes out negative. -/
theorem estimate_overflow_counterexample :
    (0 : Int) ≤ 1048576 ∧ (0 : Int) ≤ 8388608 ∧
    (1048576 : Int) * 1048576 * (1048576 + 8388608) > kint64max ∧
    getCostPerUnit [1048576, 1048576] [1048576, 8388608] < 0 := by
  exact ⟨by decide, by decide, by decide, by decide⟩

/-- C4 (amended): the clamp on rows alone does not prevent overflow for all
shapes; it does on the bounded region: for `rows > 2^20` the estimate is the
non-negative constant `kint32max`, and for `rows ≤ 2^20` with
`rhss ≤ 7340031` the int64 multiplication cannot overflow and the estimate
is the exact, non-negative, int64-bounded product. -/
theorem estimate_no_overflow_bounded_region (input rhs : List Int)
    (h0 : 0 ≤ input.getD 0 0) (h1 : 0 ≤ rhs.getD 1 0) :
    (input.getD 0 0 > 1048576 →
      getCostPerUnit input rhs = kint32max ∧ 0 ≤ getCostPerUnit input rhs) ∧
    (input.getD 0 0 ≤ 1048576 → rhs.getD 1 0 ≤ 7340031 →
      getCostPerUnit input rhs =
        input.getD 0 0 * input.getD 0 0 * (input.getD 0 0 + rhs.getD 1 0) ∧
      0 ≤ getCostPerUnit input rhs ∧ getCostPerUnit input rhs ≤ kint64max) := by
  constructor
  · intro h
    have e : getCostPerUnit input rhs = kint32max := by
      simp only [getCostPerUnit]
      rw [if_pos h]
    refine ⟨e, ?_⟩
    rw [e]
    simp [kint32max]
  · intro h hs
    have hfit := cost_product_le (input.getD 0 0) (rhs.getD 1 0) h0 h h1 hs
    have e := getCostPerUnit_eq_of_le input rhs h h0 h1 hfit
    refine ⟨e, ?_, ?_⟩
    · rw [e]
      exact mul_nonneg (mul_nonneg h0 h0) (by omega)
    · rw [e]
      simpa [kint64max] using hfit

/-- C4 witness: the estimator on 5×5 input with 2 right-hand sides. -/
theorem estimate_no_overflow_bounded_region_witness :
    getCostPerUnit [5, 5] [5, 2] = 5 * 5 * (5 + 2) ∧
    0 ≤ getCostPerUnit [5, 5] [5, 2] :=
  ⟨((estimate_no_overflow_bounded_region [5, 5] [5, 2] (by decide) (by decide)).2
      (by decide) (by decide)).1,
   ((estimate_no_overflow_bounded_region [5, 5] [5, 2] (by decide) (by decide)).2
      (by decide) (by decide)).2.1⟩

/-! ## Claims about the solve step -/

/-- C5: for non-square `A`, or for `A` and `B` with differing row counts,
`solve` fails with `ShapeMismatch`, the output buffer is untouched, and the
factorization is never reached (no numerical work before the failure). -/
theorem solve_shape_mismatch_no_write (A B outX : Mat)
    (h : A.rows ≠ A.cols ∨ A.rows ≠ B.rows) :
    (solve A B outX).res = .err .ShapeMismatch ∧
    (solve A B outX).buf = outX ∧
    (solve A B outX).factorized = false := by
  unfold solve
  rcases h with h | h
  · rw [if_pos h]
    exact ⟨rfl, rfl, rfl⟩
  · by_cases hsq : A.rows = A.cols
    · rw [if_neg (not_not_intro hsq), if_pos h]
      exact ⟨rfl, rfl, rfl⟩
    · rw [if_pos hsq]
      exact ⟨rfl, rfl, rfl⟩

/-- C5 witness: a 3×2 (non-square) `A`. -/
theorem solve_shape_mismatch_no_write_witness :
    (solve ⟨3, 2, [[1, 0], [0, 1], [0, 0]]⟩ ⟨3, 1, [[1], [1], [1]]⟩
        ⟨3, 1, [[9], [9], [9]]⟩).res = .err .ShapeMismatch ∧
    (solve ⟨3, 2, [[1, 0], [0, 1], [0, 0]]⟩ ⟨3, 1, [[1], [1], [1]]⟩
        ⟨3, 1, [[9], [9], [9]]⟩).buf = ⟨3, 1, [[9], [9], [9]]⟩ ∧
    (solve ⟨3, 2, [[1, 0], [0, 1], [0, 0]]⟩ ⟨3, 1, [[1], [1], [1]]⟩
        ⟨3, 1, [[9], [9], [9]]⟩).factorized = false :=
  solve_shape_mismatch_no_write _ _ _ (Or.inl (by decide))

/-- C6 counterexample: a zero-row but non-square `A` (0×1) with a zero-row
`B` is rejected by the square check with `ShapeMismatch`; `solve` does not
succeed even though `A.rows = 0` and `B.rows = 0`. -/
theorem solve_zero_rows_nonsquare_counterexample :
    (⟨0, 1, []⟩ : Mat).rows = 0 ∧ (⟨0, 1, ([] : List (List ℚ))⟩ : Mat).rows = 0 ∧
    (solve ⟨0, 1, []⟩ ⟨0, 1, []⟩ ⟨0, 1, []⟩).res = .err .ShapeMismatch ∧
    (solve ⟨0, 1, []⟩ ⟨0, 1, []⟩ ⟨0, 1, []⟩).res ≠ .ok := by
  exact ⟨rfl, rfl, by decide, by decide⟩

/-- C6 (amended): for every square zero-row `A` (the 0×0 matrix) and every
zero-row `B` (any column count), `solve` succeeds, the zero-row output
buffer is returned unchanged as the empty result, and the factorization is
never attempted. -/
theorem solve_empty_system (A B outX : Mat)
    (hA : A.rows = 0) (hAc : A.cols = 0) (hB : B.rows = 0)
    (hX : outX.rows = 0) :
    (solve A B outX).res = .ok ∧
    (solve A B outX).buf = outX ∧
    (solve A B outX).buf.rows = 0 ∧
    (solve A B outX).factorized = false := by
  unfold solve
  rw [if_neg (not_not_intro (by omega)), if_neg (not_not_intro (by omega)),
    if_pos hA]
  exact ⟨rfl, rfl, hX, rfl⟩

/-- C6 witness: the 0×0 system with a two-column empty rhs. -/
theorem solve_empty_system_witness :
    (solve ⟨0, 0, []⟩ ⟨0, 2, []⟩ ⟨0, 2, []⟩).res = .ok ∧
    (solve ⟨0, 0, []⟩ ⟨0, 2, []⟩ ⟨0, 2, []⟩).buf = ⟨0, 2, []⟩ ∧
    (solve ⟨0, 0, []⟩ ⟨0, 2, []⟩ ⟨0, 2, []⟩).buf.rows = 0 ∧
    (solve ⟨0, 0, []⟩ ⟨0, 2, []⟩ ⟨0, 2, []⟩).factorized = false :=
  solve_empty_system _ _ _ rfl rfl rfl rfl

/-- C7: for square `A` with compatible `B`, if the factorization yields a
minimum absolute diagonal pivot that is not strictly positive (and there is
at least one pivot, `A.rows > 0`), `solve` fails with `NotInvertible`; if
the minimum absolute pivot is strictly positive, `solve` does not fail with
`NotInvertible`. -/
theorem solve_notinvertible_pivot_iff (A B outX : Mat)
    (hsq : A.rows = A.cols) (hrows : A.rows = B.rows) :
    (0 < A.rows → minAbsPivot A ≤ 0 →
      (solve A B outX).res = .err .NotInvertible) ∧
    (0 < minAbsPivot A → (solve A B outX).res ≠ .err .NotInvertible) := by
  unfold solve
  rw [if_neg (not_not_intro hsq), if_neg (not_not_intro hrows)]
  by_cases h0 : A.rows = 0
  · rw [if_pos h0]
    exact ⟨fun hp _ => absurd h0 (by omega),
      fun _ h => SolveResult.noConfusion h⟩
  · rw [if_neg h0]
    constructor
    · intro _ hle
      rw [if_pos (not_lt.mpr hle)]
    · intro hpos
      rw [if_neg (not_not_intro hpos)]
      exact fun h => SolveResult.noConfusion h

/-- C7 witness: the spec's example `[[0, 1], [0, 1]]`, whose factorized
diagonal contains an exact zero. -/
theorem solve_notinvertible_pivot_iff_witness :
    (solve ⟨2, 2, [[0, 1], [0, 1]]⟩ ⟨2, 1, [[1], [1]]⟩
      ⟨2, 1, [[0], [0]]⟩).res = .err .NotInvertible :=
  (solve_notinvertible_pivot_iff ⟨2, 2, [[0, 1], [0, 1]]⟩ ⟨2, 1, [[1], [1]]⟩
    ⟨2, 1, [[0], [0]]⟩ rfl rfl).1 (by decide) (by decide)

/-- C10: whenever `solve` fails with `NotInvertible`, the output buffer is
exactly what it was before the call: the pivot check happens strictly before
the only write to the buffer. -/
theorem solve_notinvertible_preserves_buffer (A B outX : Mat)
    (h : (solve A B outX).res = .err .NotInvertible) :
    (solve A B outX).buf = outX := by
  unfold solve at h ⊢
  split_ifs at h ⊢ <;> simp_all

/-- C10 witness: the all-zero 2×2 matrix with a non-trivial prior buffer. -/
theorem solve_notinvertible_preserves_buffer_witness :
    (solve ⟨2, 2, [[0, 0], [0, 0]]⟩ ⟨2, 1, [[1], [1]]⟩
      ⟨2, 1, [[5], [5]]⟩).buf = ⟨2, 1, [[5], [5]]⟩ :=
  solve_notinvertible_preserves_buffer _ _ _ (by decide)

end MatrixSolve
